import Mathlib

/-!
Verification of `combine_sources.py`: a shallow embedding of the script's
data model (files as path components plus raw bytes), its three selection
filters, its UTF-8 decoding with dropped invalid sequences, its block
formatting, and its single-output-file run, together with proofs of the
specified properties.
-/

namespace CombineSources

/-! ### String constants appearing literally in the source -/

/-- Extension pattern of the first selection criterion, `rglob("*.rs")`. -/
def rsExt : String := ".rs"

/-- Extension pattern of the second selection criterion, `rglob("*.pest")`. -/
def pestExt : String := ".pest"

/-- Exact filename of the third selection criterion, `rglob("Cargo.toml")`. -/
def cargoTomlName : String := "Cargo.toml"

/-- `OUTPUT = Path("combined.txt")`. -/
def outputName : String := "combined.txt"

/-- Excluded path segment for `.rs` files. -/
def targetDir : String := "target"

/-- Excluded path segment for `.pest` and `Cargo.toml` files. -/
def addonsDir : String := "addons"

/-- The literal carriage-return + line-feed terminator written by the script. -/
def crlf : String := "\r\n"

/-- The `# ` the path line starts with. -/
def hashMark : String := "# "

/-- The repeated unit of the banner line, `'//'`. -/
def slashPair : String := "//"

/-- Path separator used when rendering resolved absolute paths. -/
def pathSep : String := "/"

/-- First console message, printed before discovery. -/
def collectMsg : String := "[+] Collecting .gd / .tscn files..."

/-- Second console message, printed after the write loop finishes. -/
def doneMsg : String := "[+] Done! Output written to combined.txt"

/-- String repetition, modelling Python's `s * n` (here `'//' * 10`). -/
def repeatStr : Nat → String → String
  | 0, _ => ""
  | n + 1, s => s ++ repeatStr n s

/-- The banner line `'//' * 10`: twenty slashes. -/
def banner : String := repeatStr 10 slashPair

/-! ### Files and selection -/

/-- A regular file in the traversed tree: the directory components of its
path relative to the working directory, its filename, and its raw bytes. -/
structure SrcFile where
  dirs : List String
  name : String
  bytes : List Nat
  deriving DecidableEq, Repr

/-- `f.parts` of the relative path as `pathlib` reports it: the directory
components followed by the filename. -/
def SrcFile.parts (f : SrcFile) : List String := f.dirs ++ [f.name]

/-- `rglob("*.ext")` name matching: the filename ends with the pattern
suffix (pathlib's fnmatch also matches names that are exactly the suffix,
and does not special-case leading dots). -/
def nameEndsWith (f : SrcFile) (pat : String) : Bool :=
  decide (pat.data <:+ f.name.data)

/-- Criterion 1: `rglob("*.rs")` with `"target" not in f.parts`. -/
def matchesRs (f : SrcFile) : Bool :=
  nameEndsWith f rsExt && !(f.parts.contains targetDir)

/-- Criterion 2: `rglob("*.pest")` with `"addons" not in f.parts`. -/
def matchesPest (f : SrcFile) : Bool :=
  nameEndsWith f pestExt && !(f.parts.contains addonsDir)

/-- Criterion 3: `rglob("Cargo.toml")` with `"addons" not in f.parts`. -/
def matchesCargoToml (f : SrcFile) : Bool :=
  (f.name == cargoTomlName) && !(f.parts.contains addonsDir)

/-- A file matches some selection criterion. -/
def matchesAny (f : SrcFile) : Bool :=
  matchesRs f || matchesPest f || matchesCargoToml f

/-- `rs_files`: the tree in traversal order, filtered by criterion 1. -/
def rsFiles (tree : List SrcFile) : List SrcFile := tree.filter matchesRs

/-- `pest_files`: the tree filtered by criterion 2. -/
def pestFiles (tree : List SrcFile) : List SrcFile := tree.filter matchesPest

/-- `cargo_toml`: the tree filtered by criterion 3. -/
def cargoTomlFiles (tree : List SrcFile) : List SrcFile := tree.filter matchesCargoToml

/-- `chain(rs_files, pest_files, cargo_toml)`: the emission order. -/
def selectedFiles (tree : List SrcFile) : List SrcFile :=
  rsFiles tree ++ pestFiles tree ++ cargoTomlFiles tree

/-! ### UTF-8 encoding and decoding

`file.read_text(encoding="utf-8", errors="ignore")` decodes the file's
bytes as UTF-8, dropping each maximal ill-formed subpart instead of
raising; the output file is opened with `encoding="utf-8"`, so the text
written is encoded back to UTF-8 bytes. -/

/-- Standard UTF-8 encoding of one scalar value. -/
def encodeChar (c : Char) : List Nat :=
  let n := c.toNat
  if n < 0x80 then [n]
  else if n < 0x800 then [0xC0 + n / 0x40, 0x80 + n % 0x40]
  else if n < 0x10000 then [0xE0 + n / 0x1000, 0x80 + n / 0x40 % 0x40, 0x80 + n % 0x40]
  else [0xF0 + n / 0x40000, 0x80 + n / 0x1000 % 0x40, 0x80 + n / 0x40 % 0x40, 0x80 + n % 0x40]

/-- UTF-8 encoding of a string. -/
def encodeStr (s : String) : List Nat := (s.data.map encodeChar).flatten

/-- A UTF-8 continuation byte. -/
def isCont (b : Nat) : Bool := 0x80 ≤ b && b ≤ 0xBF

/-- Valid first continuation byte after a three-byte lead: `E0` requires
`A0`–`BF` (no overlong forms), `ED` requires `80`–`9F` (no surrogates). -/
def isCont3 (b0 b1 : Nat) : Bool :=
  if b0 == 0xE0 then 0xA0 ≤ b1 && b1 ≤ 0xBF
  else if b0 == 0xED then 0x80 ≤ b1 && b1 ≤ 0x9F
  else isCont b1

/-- Valid first continuation byte after a four-byte lead: `F0` requires
`90`–`BF` (no overlong forms), `F4` requires `80`–`8F` (≤ U+10FFFF). -/
def isCont4 (b0 b1 : Nat) : Bool :=
  if b0 == 0xF0 then 0x90 ≤ b1 && b1 ≤ 0xBF
  else if b0 == 0xF4 then 0x80 ≤ b1 && b1 ≤ 0x8F
  else isCont b1

/-- UTF-8 decoding with `errors="ignore"`: well-formed sequences decode to
their scalar value; each maximal ill-formed subpart is dropped silently
(invalid or truncated lead bytes are skipped and decoding resumes at the
next byte), so decoding never fails. -/
def decodeBytes : List Nat → List Char
  | [] => []
  | b0 :: r0 =>
    if b0 < 0x80 then Char.ofNat b0 :: decodeBytes r0
    else if b0 < 0xC2 then decodeBytes r0
    else if b0 ≤ 0xDF then
      match r0 with
      | [] => []
      | b1 :: r1 =>
        if isCont b1 then
          Char.ofNat ((b0 - 0xC0) * 0x40 + (b1 - 0x80)) :: decodeBytes r1
        else decodeBytes (b1 :: r1)
    else if b0 ≤ 0xEF then
      match r0 with
      | [] => []
      | b1 :: r1 =>
        if isCont3 b0 b1 then
          match r1 with
          | [] => []
          | b2 :: r2 =>
            if isCont b2 then
              Char.ofNat ((b0 - 0xE0) * 0x1000 + (b1 - 0x80) * 0x40 + (b2 - 0x80)) ::
                decodeBytes r2
            else decodeBytes (b2 :: r2)
        else decodeBytes (b1 :: r1)
    else if b0 ≤ 0xF4 then
      match r0 with
      | [] => []
      | b1 :: r1 =>
        if isCont4 b0 b1 then
          match r1 with
          | [] => []
          | b2 :: r2 =>
            if isCont b2 then
              match r2 with
              | [] => []
              | b3 :: r3 =>
                if isCont b3 then
                  Char.ofNat ((b0 - 0xF0) * 0x40000 + (b1 - 0x80) * 0x1000 +
                      (b2 - 0x80) * 0x40 + (b3 - 0x80)) :: decodeBytes r3
                else decodeBytes (b3 :: r3)
            else decodeBytes (b2 :: r2)
        else decodeBytes (b1 :: r1)
    else decodeBytes r0

/-- The decoded text of a byte list, as a string. -/
def decodeStr (l : List Nat) : String := ⟨decodeBytes l⟩

/-! ### Output construction -/

/-- `file.resolve()`: the absolute path of a file, rendered against the
resolved working directory. -/
def resolvedPath (cwd : String) (f : SrcFile) : String :=
  cwd ++ pathSep ++ String.intercalate pathSep f.parts

/-- The block the write loop emits for one file: banner line, `# ` plus
resolved path, banner line, decoded content, then `"\r\n\r\n"`, each
structural line terminated by the literal CR+LF. -/
def fileBlock (cwd : String) (f : SrcFile) : String :=
  banner ++ crlf ++ hashMark ++ resolvedPath cwd f ++ crlf ++ banner ++ crlf ++
    decodeStr f.bytes ++ crlf ++ crlf

/-- Sequential concatenation of the written strings. -/
def concatStrings : List String → String
  | [] => ""
  | s :: rest => s ++ concatStrings rest

/-- The full text written to `combined.txt` for a given traversal order of
the working tree. -/
def combinedOutput (cwd : String) (tree : List SrcFile) : String :=
  concatStrings ((selectedFiles tree).map (fileBlock cwd))

/-! ### Newline translation (the `newline=""` argument) -/

/-- The empty string. -/
def emptyStr : String := ""

/-- The `newline` argument the script passes to `open`: the empty string,
which disables translation. -/
def outputNewlineArg : Option String := some emptyStr

/-- Python text-mode newline translation on write: every `'\n'` becomes the
platform's line separator. -/
def translateNewlines (platformNl : String) (s : String) : String :=
  ⟨(s.data.map fun c => if c = '\n' then platformNl.data else [c]).flatten⟩

/-- The bytes-as-text actually written for a given platform line separator:
with `newline=None` the text is translated, with `newline=""` it is written
verbatim. -/
def writtenText (platformNl : String) (s : String) : String :=
  match outputNewlineArg with
  | none => translateNewlines platformNl s
  | some v => if v.isEmpty then s else translateNewlines platformNl s

/-- The raw text a run writes into `combined.txt` on a platform with the
given native line separator. -/
def emittedOutput (platformNl : String) (cwd : String) (tree : List SrcFile) : String :=
  writtenText platformNl (combinedOutput cwd tree)

/-! ### The run as a filesystem transformation -/

/-- The entry `OUTPUT` denotes: `combined.txt` directly in the working
directory. -/
def isOutputEntry (f : SrcFile) : Bool := f.dirs.isEmpty && (f.name == outputName)

/-- One run over a filesystem (a list of files in traversal order): first
`OUTPUT.unlink()` removes a pre-existing `combined.txt`, then the globs run
over the remaining tree, then `combined.txt` is created holding the UTF-8
encoded combined output. Nothing else is touched. -/
def runFS (cwd : String) (fs : List SrcFile) : List SrcFile :=
  let visible := fs.filter (fun f => !(isOutputEntry f))
  visible ++ [⟨[], outputName, encodeStr (combinedOutput cwd visible)⟩]

/-- The text content a run writes, as a function of the starting
filesystem. -/
def runOutputText (cwd : String) (fs : List SrcFile) : String :=
  combinedOutput cwd (fs.filter (fun f => !(isOutputEntry f)))

/-- The console lines a run prints: one before discovery, one after the
write loop; both are unconditional. -/
def consoleOutput : List String := [collectMsg, doneMsg]

/-! ### Helper lemmas: concatenation and selection -/

theorem concatStrings_append (a b : List String) :
    concatStrings (a ++ b) = concatStrings a ++ concatStrings b := by
  induction a with
  | nil => simp [concatStrings, String.empty_append]
  | cons x xs ih => simp [concatStrings, ih, String.append_assoc]

theorem getLast?_of_suffix {p l : List Char} (h : p <:+ l) (hp : p ≠ []) :
    l.getLast? = p.getLast? := by
  obtain ⟨pre, rfl⟩ := h
  rw [List.getLast?_append]
  cases hl : p.getLast? with
  | none => exact absurd (List.getLast?_eq_none_iff.mp hl) hp
  | some x => rfl

theorem nameEndsWith_iff {f : SrcFile} {pat : String} :
    nameEndsWith f pat = true ↔ pat.data <:+ f.name.data := by
  simp [nameEndsWith]

theorem not_rs_and_pest {f : SrcFile} (h1 : nameEndsWith f rsExt = true)
    (h2 : nameEndsWith f pestExt = true) : False := by
  rw [nameEndsWith_iff] at h1 h2
  have e1 := getLast?_of_suffix h1 (by decide)
  have e2 := getLast?_of_suffix h2 (by decide)
  rw [e1] at e2
  exact absurd e2 (by decide)

theorem not_rs_and_cargo {f : SrcFile} (h1 : nameEndsWith f rsExt = true)
    (h2 : f.name = cargoTomlName) : False := by
  rw [nameEndsWith_iff, h2] at h1
  exact absurd h1 (by decide)

theorem not_pest_and_cargo {f : SrcFile} (h1 : nameEndsWith f pestExt = true)
    (h2 : f.name = cargoTomlName) : False := by
  rw [nameEndsWith_iff, h2] at h1
  exact absurd h1 (by decide)

theorem mem_selectedFiles {tree : List SrcFile} {f : SrcFile} :
    f ∈ selectedFiles tree ↔ f ∈ tree ∧ matchesAny f = true := by
  simp only [selectedFiles, rsFiles, pestFiles, cargoTomlFiles, matchesAny,
    List.mem_append, List.mem_filter, Bool.or_eq_true]
  tauto

/-! ### Helper lemmas: the decoder on well-formed sequences -/

theorem decodeBytes_one {b0 : Nat} (r : List Nat) (h : b0 < 0x80) :
    decodeBytes (b0 :: r) = Char.ofNat b0 :: decodeBytes r := by
  rw [decodeBytes.eq_def]
  dsimp only
  rw [if_pos h]

theorem decodeBytes_two {b0 b1 : Nat} (r : List Nat) (h0 : 0xC2 ≤ b0) (h0' : b0 ≤ 0xDF)
    (h1 : isCont b1 = true) :
    decodeBytes (b0 :: b1 :: r) =
      Char.ofNat ((b0 - 0xC0) * 0x40 + (b1 - 0x80)) :: decodeBytes r := by
  rw [decodeBytes.eq_def]
  dsimp only
  rw [if_neg (by omega), if_neg (by omega), if_pos h0']
  simp only [h1, if_pos]

theorem decodeBytes_three {b0 b1 b2 : Nat} (r : List Nat) (h0 : 0xE0 ≤ b0) (h0' : b0 ≤ 0xEF)
    (h1 : isCont3 b0 b1 = true) (h2 : isCont b2 = true) :
    decodeBytes (b0 :: b1 :: b2 :: r) =
      Char.ofNat ((b0 - 0xE0) * 0x1000 + (b1 - 0x80) * 0x40 + (b2 - 0x80)) :: decodeBytes r := by
  rw [decodeBytes.eq_def]
  dsimp only
  rw [if_neg (by omega), if_neg (by omega), if_neg (by omega), if_pos h0']
  simp only [h1, h2, if_pos]

theorem decodeBytes_four {b0 b1 b2 b3 : Nat} (r : List Nat) (h0 : 0xF0 ≤ b0) (h0' : b0 ≤ 0xF4)
    (h1 : isCont4 b0 b1 = true) (h2 : isCont b2 = true) (h3 : isCont b3 = true) :
    decodeBytes (b0 :: b1 :: b2 :: b3 :: r) =
      Char.ofNat ((b0 - 0xF0) * 0x40000 + (b1 - 0x80) * 0x1000 +
        (b2 - 0x80) * 0x40 + (b3 - 0x80)) :: decodeBytes r := by
  rw [decodeBytes.eq_def]
  dsimp only
  rw [if_neg (by omega), if_neg (by omega), if_neg (by omega), if_neg (by omega), if_pos h0']
  simp only [h1, h2, h3, if_pos]

theorem decodeBytes_skip_ff (r : List Nat) : decodeBytes (0xFF :: r) = decodeBytes r := by
  rw [decodeBytes.eq_def]
  dsimp only
  rw [if_neg (by omega), if_neg (by omega), if_neg (by omega), if_neg (by omega),
    if_neg (by omega)]

/-! ### Helper lemmas: round trip of well-formed text -/

theorem decode_encodeChar (c : Char) (rest : List Nat) :
    decodeBytes (encodeChar c ++ rest) = c :: decodeBytes rest := by
  have hofn : Char.ofNat c.toNat = c := Char.ofNat_toNat c
  have hval : c.toNat < 0xD800 ∨ (0xDFFF < c.toNat ∧ c.toNat < 0x110000) := c.valid
  by_cases h1 : c.toNat < 0x80
  · have he : encodeChar c = [c.toNat] := by
      dsimp only [encodeChar]; rw [if_pos h1]
    rw [he, List.cons_append, List.nil_append, decodeBytes_one rest h1, hofn]
  · by_cases h2 : c.toNat < 0x800
    · have he : encodeChar c = [0xC0 + c.toNat / 0x40, 0x80 + c.toNat % 0x40] := by
        dsimp only [encodeChar]; rw [if_neg h1, if_pos h2]
      rw [he]
      simp only [List.cons_append, List.nil_append]
      rw [decodeBytes_two rest (by omega) (by omega)
        (by simp only [isCont, Bool.and_eq_true, decide_eq_true_eq]; omega)]
      have hv : (0xC0 + c.toNat / 0x40 - 0xC0) * 0x40 + (0x80 + c.toNat % 0x40 - 0x80) =
          c.toNat := by omega
      rw [hv, hofn]
    · by_cases h3 : c.toNat < 0x10000
      · have he : encodeChar c =
            [0xE0 + c.toNat / 0x1000, 0x80 + c.toNat / 0x40 % 0x40, 0x80 + c.toNat % 0x40] := by
          dsimp only [encodeChar]; rw [if_neg h1, if_neg h2, if_pos h3]
        rw [he]
        simp only [List.cons_append, List.nil_append]
        have hc3 : isCont3 (0xE0 + c.toNat / 0x1000) (0x80 + c.toNat / 0x40 % 0x40) = true := by
          unfold isCont3 isCont
          by_cases hq0 : c.toNat / 0x1000 = 0
          · rw [if_pos (by simp only [beq_iff_eq]; omega)]
            simp only [Bool.and_eq_true, decide_eq_true_eq]
            omega
          · rw [if_neg (by simp only [beq_iff_eq]; omega)]
            by_cases hq13 : c.toNat / 0x1000 = 13
            · rw [if_pos (by simp only [beq_iff_eq]; omega)]
              simp only [Bool.and_eq_true, decide_eq_true_eq]
              omega
            · rw [if_neg (by simp only [beq_iff_eq]; omega)]
              simp only [Bool.and_eq_true, decide_eq_true_eq]
              omega
        rw [decodeBytes_three rest (by omega) (by omega) hc3
          (by simp only [isCont, Bool.and_eq_true, decide_eq_true_eq]; omega)]
        have hv : (0xE0 + c.toNat / 0x1000 - 0xE0) * 0x1000 +
            (0x80 + c.toNat / 0x40 % 0x40 - 0x80) * 0x40 +
            (0x80 + c.toNat % 0x40 - 0x80) = c.toNat := by omega
        rw [hv, hofn]
      · have he : encodeChar c =
            [0xF0 + c.toNat / 0x40000, 0x80 + c.toNat / 0x1000 % 0x40,
              0x80 + c.toNat / 0x40 % 0x40, 0x80 + c.toNat % 0x40] := by
          dsimp only [encodeChar]; rw [if_neg h1, if_neg h2, if_neg h3]
        rw [he]
        simp only [List.cons_append, List.nil_append]
        have hc4 : isCont4 (0xF0 + c.toNat / 0x40000) (0x80 + c.toNat / 0x1000 % 0x40) = true := by
          unfold isCont4 isCont
          by_cases hq0 : c.toNat / 0x40000 = 0
          · rw [if_pos (by simp only [beq_iff_eq]; omega)]
            simp only [Bool.and_eq_true, decide_eq_true_eq]
            omega
          · rw [if_neg (by simp only [beq_iff_eq]; omega)]
            by_cases hq4 : c.toNat / 0x40000 = 4
            · rw [if_pos (by simp only [beq_iff_eq]; omega)]
              simp only [Bool.and_eq_true, decide_eq_true_eq]
              omega
            · rw [if_neg (by simp only [beq_iff_eq]; omega)]
              simp only [Bool.and_eq_true, decide_eq_true_eq]
              omega
        rw [decodeBytes_four rest (by omega) (by omega) hc4
          (by simp only [isCont, Bool.and_eq_true, decide_eq_true_eq]; omega)
          (by simp only [isCont, Bool.and_eq_true, decide_eq_true_eq]; omega)]
        have hv : (0xF0 + c.toNat / 0x40000 - 0xF0) * 0x40000 +
            (0x80 + c.toNat / 0x1000 % 0x40 - 0x80) * 0x1000 +
            (0x80 + c.toNat / 0x40 % 0x40 - 0x80) * 0x40 +
            (0x80 + c.toNat % 0x40 - 0x80) = c.toNat := by omega
        rw [hv, hofn]

theorem decode_encode_append (cs : List Char) (rest : List Nat) :
    decodeBytes ((cs.map encodeChar).flatten ++ rest) = cs ++ decodeBytes rest := by
  induction cs with
  | nil => simp
  | cons c cs ih =>
    simp only [List.map_cons, List.flatten_cons, List.append_assoc]
    rw [decode_encodeChar, ih, List.cons_append]

theorem decodeStr_encodeStr (s : String) : decodeStr (encodeStr s) = s := by
  have h := decode_encode_append s.data []
  simp only [List.append_nil, decodeBytes] at h
  cases s with
  | mk data =>
    simp only [decodeStr, encodeStr]
    exact congrArg String.mk h

/-! ### Helper lemmas: block decomposition of the output -/

theorem output_contains_block (cwd : String) {tree : List SrcFile} {f : SrcFile}
    (hmem : f ∈ tree) (hm : matchesAny f = true) :
    ∃ u v : String, combinedOutput cwd tree = u ++ decodeStr f.bytes ++ v := by
  have hsel : f ∈ selectedFiles tree := mem_selectedFiles.mpr ⟨hmem, hm⟩
  obtain ⟨l1, l2, hsplit⟩ := List.append_of_mem hsel
  refine ⟨concatStrings (l1.map (fileBlock cwd)) ++
      (banner ++ crlf ++ hashMark ++ resolvedPath cwd f ++ crlf ++ banner ++ crlf),
    crlf ++ crlf ++ concatStrings (l2.map (fileBlock cwd)), ?_⟩
  simp only [combinedOutput, hsplit, List.map_append, List.map_cons, concatStrings_append,
    concatStrings, fileBlock, String.append_assoc]

/-! ### The claims -/

/-- C2: in the output, the blocks of all `.rs` matches come first, then all
`.pest` matches, then all `Cargo.toml` matches; in particular, a tree with
exactly one file of each category yields the `.rs` block, then the `.pest`
block, then the `Cargo.toml` block. -/
theorem c2_output_ordering (cwd : String) (tree : List SrcFile) :
    combinedOutput cwd tree =
      concatStrings ((rsFiles tree).map (fileBlock cwd)) ++
        concatStrings ((pestFiles tree).map (fileBlock cwd)) ++
        concatStrings ((cargoTomlFiles tree).map (fileBlock cwd)) ∧
    (∀ a b c : SrcFile, rsFiles tree = [a] → pestFiles tree = [b] →
      cargoTomlFiles tree = [c] →
      combinedOutput cwd tree = fileBlock cwd a ++ fileBlock cwd b ++ fileBlock cwd c) := by
  constructor
  · simp only [combinedOutput, selectedFiles, List.map_append, concatStrings_append,
      String.append_assoc]
  · intro a b c ha hb hc
    simp only [combinedOutput, selectedFiles, ha, hb, hc, List.map_append, List.map_cons,
      List.map_nil, concatStrings_append, concatStrings, String.append_assoc,
      String.append_empty]

/-- C2 witness: a concrete tree holding one `Cargo.toml`, one `.pest` file
and one `.rs` file (in that traversal order) is emitted as the `.rs` block,
then the `.pest` block, then the `Cargo.toml` block. -/
theorem c2_output_ordering_witness :
    combinedOutput ("/home/user/proj")
        [⟨[], cargoTomlName, [0x63]⟩, ⟨["grammar"], "expr.pest", [0x62]⟩,
          ⟨["src"], "main.rs", [0x61]⟩] =
      fileBlock ("/home/user/proj") ⟨["src"], "main.rs", [0x61]⟩ ++
        fileBlock ("/home/user/proj") ⟨["grammar"], "expr.pest", [0x62]⟩ ++
        fileBlock ("/home/user/proj") ⟨[], cargoTomlName, [0x63]⟩ :=
  (c2_output_ordering ("/home/user/proj")
      [⟨[], cargoTomlName, [0x63]⟩, ⟨["grammar"], "expr.pest", [0x62]⟩,
        ⟨["src"], "main.rs", [0x61]⟩]).2
    ⟨["src"], "main.rs", [0x61]⟩ ⟨["grammar"], "expr.pest", [0x62]⟩
    ⟨[], cargoTomlName, [0x63]⟩ (by decide) (by decide) (by decide)

/-- C3: a file under a directory named `target` whose name ends in `.rs`,
or under a directory named `addons` whose name ends in `.pest` or is
exactly `Cargo.toml`, is never among the emitted files. -/
theorem c3_exclusion (tree : List SrcFile) (f : SrcFile)
    (h : (targetDir ∈ f.parts ∧ nameEndsWith f rsExt = true) ∨
      (addonsDir ∈ f.parts ∧ (nameEndsWith f pestExt = true ∨ f.name = cargoTomlName))) :
    f ∉ selectedFiles tree := by
  intro hmem
  obtain ⟨-, hmatch⟩ := mem_selectedFiles.mp hmem
  simp only [matchesAny, matchesRs, matchesPest, matchesCargoToml, Bool.or_eq_true,
    Bool.and_eq_true, Bool.not_eq_true'] at hmatch
  rcases h with ⟨ht, hrs⟩ | ⟨ha, hpc⟩
  · rcases hmatch with (⟨-, hnc⟩ | ⟨hp, -⟩) | ⟨hc, -⟩
    · have : f.parts.contains targetDir = true := by
        simpa using ht
      rw [this] at hnc
      exact absurd hnc (by simp)
    · exact not_rs_and_pest hrs hp
    · exact not_rs_and_cargo hrs (by simpa using hc)
  · rcases hpc with hpe | hcn
    · rcases hmatch with (⟨hr, -⟩ | ⟨-, hnc⟩) | ⟨hc, -⟩
      · exact not_rs_and_pest hr hpe
      · have : f.parts.contains addonsDir = true := by
          simpa using ha
        rw [this] at hnc
        exact absurd hnc (by simp)
      · exact not_pest_and_cargo hpe (by simpa using hc)
    · rcases hmatch with (⟨hr, -⟩ | ⟨hp, -⟩) | ⟨-, hnc⟩
      · exact not_rs_and_cargo hr hcn
      · exact not_pest_and_cargo hp hcn
      · have : f.parts.contains addonsDir = true := by
          simpa using ha
        rw [this] at hnc
        exact absurd hnc (by simp)

/-- C3 witness: a `.rs` file under `target` is not selected from a
single-file tree containing it. -/
theorem c3_exclusion_witness :
    (⟨["target"], "lib.rs", [0x61]⟩ : SrcFile) ∉
      selectedFiles [⟨["target"], "lib.rs", [0x61]⟩] :=
  c3_exclusion [⟨["target"], "lib.rs", [0x61]⟩] ⟨["target"], "lib.rs", [0x61]⟩
    (Or.inl ⟨by decide, by decide⟩)

/-- C4: every block is exactly banner line, CR+LF, `# ` plus the resolved
absolute path, CR+LF, banner line, CR+LF, the decoded content, and two
CR+LF sequences; the banner is twenty `/` characters, the terminator is the
literal CR then LF character pair, and the emitted bytes do not depend on
the host platform's native line separator (`newline=""` disables
translation). -/
theorem c4_block_format (cwd : String) (f : SrcFile) :
    fileBlock cwd f =
      banner ++ crlf ++ hashMark ++ resolvedPath cwd f ++ crlf ++ banner ++ crlf ++
        decodeStr f.bytes ++ crlf ++ crlf ∧
    banner.data = List.replicate 20 '/' ∧
    crlf.data = [Char.ofNat 13, Char.ofNat 10] ∧
    hashMark.data = ['#', ' '] ∧
    (∀ nl₁ nl₂ : String, ∀ tree : List SrcFile,
      emittedOutput nl₁ cwd tree = emittedOutput nl₂ cwd tree) := by
  refine ⟨rfl, by decide, by decide, by decide, ?_⟩
  intro nl₁ nl₂ tree
  have hcond : emptyStr.isEmpty = true := by decide
  simp [emittedOutput, writtenText, outputNewlineArg, hcond]

/-- C1: in a tree whose file paths are distinct, every file matching one of
the three selection criteria is emitted exactly once, and its full decoded
text content appears in the output inside that block. -/
theorem c1_completeness (cwd : String) (tree : List SrcFile) (f : SrcFile)
    (hnd : (tree.map SrcFile.parts).Nodup) (hmem : f ∈ tree) (hm : matchesAny f = true) :
    (selectedFiles tree).count f = 1 ∧
    ∃ u v : String, combinedOutput cwd tree = u ++ decodeStr f.bytes ++ v := by
  refine ⟨?_, output_contains_block cwd hmem hm⟩
  have hndt : tree.Nodup := hnd.of_map
  have hc1 : tree.count f = 1 := List.count_eq_one_of_mem hndt hmem
  have hkey : ∀ p : SrcFile → Bool, p f = false → (tree.filter p).count f = 0 := by
    intro p hp
    refine List.count_eq_zero_of_not_mem ?_
    intro hin
    rw [(List.mem_filter.mp hin).2] at hp
    exact absurd hp (by simp)
  have hm' : matchesRs f = true ∨ matchesPest f = true ∨ matchesCargoToml f = true := by
    have := hm
    simp only [matchesAny, Bool.or_eq_true] at this
    tauto
  rw [selectedFiles, List.count_append, List.count_append, rsFiles, pestFiles, cargoTomlFiles]
  rcases hm' with hr | hp | hc
  · have hrex : nameEndsWith f rsExt = true := by
      have := hr
      simp only [matchesRs, Bool.and_eq_true] at this
      exact this.1
    have hpf : matchesPest f = false := by
      rcases hb : matchesPest f
      · rfl
      · have hpex : nameEndsWith f pestExt = true := by
          simp only [matchesPest, Bool.and_eq_true] at hb
          exact hb.1
        exact (not_rs_and_pest hrex hpex).elim
    have hcf : matchesCargoToml f = false := by
      rcases hb : matchesCargoToml f
      · rfl
      · have hceq : f.name = cargoTomlName := by
          simp only [matchesCargoToml, Bool.and_eq_true, beq_iff_eq] at hb
          exact hb.1
        exact (not_rs_and_cargo hrex hceq).elim
    rw [List.count_filter hr, hc1, hkey _ hpf, hkey _ hcf]
  · have hpex : nameEndsWith f pestExt = true := by
      have := hp
      simp only [matchesPest, Bool.and_eq_true] at this
      exact this.1
    have hrf : matchesRs f = false := by
      rcases hb : matchesRs f
      · rfl
      · have hrex : nameEndsWith f rsExt = true := by
          simp only [matchesRs, Bool.and_eq_true] at hb
          exact hb.1
        exact (not_rs_and_pest hrex hpex).elim
    have hcf : matchesCargoToml f = false := by
      rcases hb : matchesCargoToml f
      · rfl
      · have hceq : f.name = cargoTomlName := by
          simp only [matchesCargoToml, Bool.and_eq_true, beq_iff_eq] at hb
          exact hb.1
        exact (not_pest_and_cargo hpex hceq).elim
    rw [List.count_filter hp, hc1, hkey _ hrf, hkey _ hcf]
  · have hceq : f.name = cargoTomlName := by
      have := hc
      simp only [matchesCargoToml, Bool.and_eq_true, beq_iff_eq] at this
      exact this.1
    have hrf : matchesRs f = false := by
      rcases hb : matchesRs f
      · rfl
      · have hrex : nameEndsWith f rsExt = true := by
          simp only [matchesRs, Bool.and_eq_true] at hb
          exact hb.1
        exact (not_rs_and_cargo hrex hceq).elim
    have hpf : matchesPest f = false := by
      rcases hb : matchesPest f
      · rfl
      · have hpex : nameEndsWith f pestExt = true := by
          simp only [matchesPest, Bool.and_eq_true] at hb
          exact hb.1
        exact (not_pest_and_cargo hpex hceq).elim
    rw [List.count_filter hc, hc1, hkey _ hrf, hkey _ hpf]

/-- C1 witness: in a one-file tree holding `src/main.rs`, that file is
counted once among the emitted files and its decoded content appears in
the output. -/
theorem c1_completeness_witness :
    (selectedFiles [⟨["src"], "main.rs", [0x61]⟩]).count ⟨["src"], "main.rs", [0x61]⟩ = 1 ∧
    ∃ u v : String,
      combinedOutput ("/w") [⟨["src"], "main.rs", [0x61]⟩] =
        u ++ decodeStr (SrcFile.bytes ⟨["src"], "main.rs", [0x61]⟩) ++ v :=
  c1_completeness ("/w") [⟨["src"], "main.rs", [0x61]⟩] ⟨["src"], "main.rs", [0x61]⟩
    (by decide) (by decide) (by decide)

/-- C9: when no file in the tree matches any criterion, the run still
replaces `combined.txt` with a zero-byte file and prints both console
messages. -/
theorem c9_empty_output (cwd : String) (fs : List SrcFile)
    (h : ∀ f ∈ fs, matchesAny f = false) :
    runOutputText cwd fs = emptyStr ∧
    runFS cwd fs = fs.filter (fun f => !(isOutputEntry f)) ++ [⟨[], outputName, []⟩] ∧
    consoleOutput = [collectMsg, doneMsg] := by
  have hsub : ∀ f ∈ fs.filter (fun f => !(isOutputEntry f)), matchesAny f = false :=
    fun f hf => h f (List.mem_of_mem_filter hf)
  have hsel : selectedFiles (fs.filter (fun f => !(isOutputEntry f))) = [] := by
    rw [selectedFiles, rsFiles, pestFiles, cargoTomlFiles]
    have hone : ∀ p : SrcFile → Bool, (∀ g, matchesAny g = false → p g = false) →
        (fs.filter (fun f => !(isOutputEntry f))).filter p = [] := by
      intro p himp
      rw [List.filter_eq_nil_iff]
      intro a ha
      rw [himp a (hsub a ha)]
      simp
    have hflat : ∀ g : SrcFile, matchesAny g = false →
        matchesRs g = false ∧ matchesPest g = false ∧ matchesCargoToml g = false := by
      intro g hg
      simp only [matchesAny, Bool.or_eq_false_iff] at hg
      exact ⟨hg.1.1, hg.1.2, hg.2⟩
    rw [hone matchesRs (fun g hg => (hflat g hg).1),
      hone matchesPest (fun g hg => (hflat g hg).2.1),
      hone matchesCargoToml (fun g hg => (hflat g hg).2.2)]
    rfl
  have hout : combinedOutput cwd (fs.filter (fun f => !(isOutputEntry f))) = emptyStr := by
    rw [combinedOutput, hsel]
    rfl
  refine ⟨hout, ?_, rfl⟩
  simp only [runFS, hout]
  rfl

/-- C9 witness: a tree holding only a `README.md` yields an empty output
text, a fresh empty `combined.txt`, and both console messages. -/
theorem c9_empty_output_witness :
    runOutputText ("/w") [⟨[], "README.md", [0x41]⟩] = emptyStr ∧
    runFS ("/w") [⟨[], "README.md", [0x41]⟩] =
      ([⟨[], "README.md", [0x41]⟩] : List SrcFile).filter (fun f => !(isOutputEntry f)) ++
        [⟨[], outputName, []⟩] ∧
    consoleOutput = [collectMsg, doneMsg] :=
  c9_empty_output ("/w") [⟨[], "README.md", [0x41]⟩] (by decide)

/-- C10: a file named `combined.txt` satisfies no selection criterion, so
no run ever collects its own output file: no emitted file is named
`combined.txt`. -/
theorem c10_output_not_collected (f : SrcFile) (hf : f.name = outputName) :
    matchesAny f = false ∧ (∀ tree : List SrcFile, f ∉ selectedFiles tree) ∧
    (∀ (tree : List SrcFile) (g : SrcFile), g ∈ selectedFiles tree → g.name ≠ outputName) := by
  have hany : ∀ g : SrcFile, g.name = outputName → matchesAny g = false := by
    intro g hg
    have h1 : nameEndsWith g rsExt = false := by
      simp only [nameEndsWith, hg]
      decide
    have h2 : nameEndsWith g pestExt = false := by
      simp only [nameEndsWith, hg]
      decide
    have h3 : (g.name == cargoTomlName) = false := by
      rw [hg]
      decide
    simp only [matchesAny, matchesRs, matchesPest, matchesCargoToml, h1, h2, h3,
      Bool.false_and, Bool.or_self, Bool.or_false]
  refine ⟨hany f hf, ?_, ?_⟩
  · intro tree hmem
    have hx := (mem_selectedFiles.mp hmem).2
    rw [hany f hf] at hx
    exact absurd hx (by simp)
  · intro tree g hg hgname
    have hx := (mem_selectedFiles.mp hg).2
    rw [hany g hgname] at hx
    exact absurd hx (by simp)

/-- C10 witness: a `combined.txt` left in a subdirectory matches no
criterion. -/
theorem c10_output_not_collected_witness :
    matchesAny ⟨["sub"], "combined.txt", []⟩ = false :=
  (c10_output_not_collected ⟨["sub"], "combined.txt", []⟩ rfl).1

/-! ### Helper lemmas: the filesystem after a run -/

theorem strMk_append (a b : String) : String.mk (a.data ++ b.data) = a ++ b := by
  cases a with
  | mk la =>
    cases b with
    | mk lb => rfl

theorem filter_visible_append (fs : List SrcFile) (b : List Nat) :
    (fs.filter (fun f => !(isOutputEntry f)) ++ [(⟨[], outputName, b⟩ : SrcFile)]).filter
      (fun f => !(isOutputEntry f)) = fs.filter (fun f => !(isOutputEntry f)) := by
  have h1 : isOutputEntry ⟨[], outputName, b⟩ = true := by
    simp [isOutputEntry]
  simp [List.filter_append, List.filter_filter, h1, Bool.and_self]

theorem visible_runFS (cwd : String) (fs : List SrcFile) :
    (runFS cwd fs).filter (fun f => !(isOutputEntry f)) =
      fs.filter (fun f => !(isOutputEntry f)) := by
  simp only [runFS]
  exact filter_visible_append fs _

/-- C5: the content portion of each block is the file's decoded text
written through as-is: the block is the header followed by exactly the
decoded text and the two terminators, and whenever the file's bytes are the
UTF-8 encoding of a text (which may itself contain CR+LF sequences), the
decoded text is that text, unchanged. -/
theorem c5_content_passthrough (cwd : String) (f : SrcFile) :
    fileBlock cwd f =
      banner ++ crlf ++ hashMark ++ resolvedPath cwd f ++ crlf ++ banner ++ crlf ++
        decodeStr f.bytes ++ crlf ++ crlf ∧
    (∀ s : String, f.bytes = encodeStr s → decodeStr f.bytes = s) := by
  refine ⟨rfl, ?_⟩
  intro s hs
  rw [hs, decodeStr_encodeStr]

/-- C5 witness: a file whose bytes encode a text with embedded CR+LF line
terminators decodes back to exactly that text. -/
theorem c5_content_passthrough_witness :
    decodeStr (encodeStr ("line1\r\nline2\r\n")) = ("line1\r\nline2\r\n") :=
  (c5_content_passthrough ("/w") ⟨["src"], "lib.rs", encodeStr ("line1\r\nline2\r\n")⟩).2
    ("line1\r\nline2\r\n") rfl

/-- C6: a second run on the unchanged tree (same traversal order)
reproduces the filesystem and hence a byte-identical output file, and the
only `combined.txt` present after a run is the freshly written one. -/
theorem c6_idempotent_run (cwd : String) (fs : List SrcFile) :
    runFS cwd (runFS cwd fs) = runFS cwd fs ∧
    runOutputText cwd (runFS cwd fs) = runOutputText cwd fs ∧
    (∀ g ∈ runFS cwd fs, isOutputEntry g = true →
      g = ⟨[], outputName, encodeStr (runOutputText cwd fs)⟩) := by
  have hv := visible_runFS cwd fs
  refine ⟨?_, ?_, ?_⟩
  · show (runFS cwd fs).filter (fun f => !(isOutputEntry f)) ++
        [⟨[], outputName,
          encodeStr (combinedOutput cwd
            ((runFS cwd fs).filter (fun f => !(isOutputEntry f))))⟩] =
      runFS cwd fs
    rw [hv]
    rfl
  · show combinedOutput cwd ((runFS cwd fs).filter (fun f => !(isOutputEntry f))) =
      runOutputText cwd fs
    rw [hv]
    rfl
  · intro g hg hout
    have hg2 : g ∈ fs.filter (fun f => !(isOutputEntry f)) ++
        [(⟨[], outputName,
          encodeStr (combinedOutput cwd (fs.filter (fun f => !(isOutputEntry f))))⟩ :
          SrcFile)] := hg
    rcases List.mem_append.mp hg2 with h1 | h2
    · have hx := (List.mem_filter.mp h1).2
      rw [hout] at hx
      exact absurd hx (by simp)
    · rw [List.mem_singleton] at h2
      exact h2

/-- C6 witness: running on an empty tree and then on its result leaves the
lone fresh `combined.txt` equal to the one the first run wrote. -/
theorem c6_idempotent_run_witness :
    (⟨[], outputName, []⟩ : SrcFile) =
      ⟨[], outputName, encodeStr (runOutputText ("/w") [])⟩ :=
  (c6_idempotent_run ("/w") []).2.2 ⟨[], outputName, []⟩ (by decide) (by decide)

/-- C7: a file whose bytes are valid UTF-8 around an invalid byte still
decodes (the run never aborts on decoding): the invalid byte is silently
dropped, the remaining text is kept, and the file's block still reaches the
output of any tree containing it. -/
theorem c7_invalid_bytes_dropped (cwd : String) (tree : List SrcFile) (f : SrcFile)
    (s t : String) (hb : f.bytes = encodeStr s ++ 0xFF :: encodeStr t)
    (hmem : f ∈ tree) (hm : matchesAny f = true) :
    decodeStr f.bytes = s ++ t ∧
    ∃ u v : String, combinedOutput cwd tree = u ++ (s ++ t) ++ v := by
  have h2 : decodeBytes (encodeStr t) = t.data := by
    have h3 := decode_encode_append t.data []
    simp only [List.append_nil, decodeBytes] at h3
    exact h3
  have h1 : decodeBytes (encodeStr s ++ 0xFF :: encodeStr t) = s.data ++ t.data := by
    rw [encodeStr, decode_encode_append, decodeBytes_skip_ff, h2]
  have hdec : decodeStr f.bytes = s ++ t := by
    rw [hb, decodeStr, h1]
    exact strMk_append s t
  refine ⟨hdec, ?_⟩
  obtain ⟨u, v, h⟩ := output_contains_block cwd hmem hm
  rw [hdec] at h
  exact ⟨u, v, h⟩

/-- C7 witness: a selected `.rs` file whose bytes are `a`, an invalid
`0xFF` byte, then `b` decodes to `ab`, which appears in the output. -/
theorem c7_invalid_bytes_dropped_witness :
    decodeStr (encodeStr ("a") ++ 0xFF :: encodeStr ("b")) = ("a") ++ ("b") ∧
    ∃ u v : String,
      combinedOutput ("/w") [⟨["src"], "x.rs", encodeStr ("a") ++ 0xFF :: encodeStr ("b")⟩] =
        u ++ (("a") ++ ("b")) ++ v :=
  c7_invalid_bytes_dropped ("/w")
    [⟨["src"], "x.rs", encodeStr ("a") ++ 0xFF :: encodeStr ("b")⟩]
    ⟨["src"], "x.rs", encodeStr ("a") ++ 0xFF :: encodeStr ("b")⟩
    ("a") ("b") rfl (by decide) (by decide)

/-- C8: a run changes at most the `combined.txt` entry of the filesystem:
all other entries are preserved verbatim and in order, and everything in
the result is either the output file or was already present. -/
theorem c8_frame_effect (cwd : String) (fs : List SrcFile) :
    (runFS cwd fs).filter (fun f => !(isOutputEntry f)) =
      fs.filter (fun f => !(isOutputEntry f)) ∧
    (∀ g ∈ runFS cwd fs, isOutputEntry g = true ∨ g ∈ fs) ∧
    (∀ g ∈ fs, isOutputEntry g = false → g ∈ runFS cwd fs) := by
  refine ⟨visible_runFS cwd fs, ?_, ?_⟩
  · intro g hg
    have hg2 : g ∈ fs.filter (fun f => !(isOutputEntry f)) ++
        [(⟨[], outputName,
          encodeStr (combinedOutput cwd (fs.filter (fun f => !(isOutputEntry f))))⟩ :
          SrcFile)] := hg
    rcases List.mem_append.mp hg2 with h1 | h2
    · exact Or.inr (List.mem_of_mem_filter h1)
    · rw [List.mem_singleton] at h2
      subst h2
      left
      simp [isOutputEntry]
  · intro g hg hout
    have hmemf : g ∈ fs.filter (fun f => !(isOutputEntry f)) :=
      List.mem_filter.mpr ⟨hg, by simp [hout]⟩
    exact (List.mem_append.mpr (Or.inl hmemf) :
      g ∈ fs.filter (fun f => !(isOutputEntry f)) ++
        [⟨[], outputName,
          encodeStr (combinedOutput cwd (fs.filter (fun f => !(isOutputEntry f))))⟩])

/-- C8 witness: a source file that is not the output entry survives the run
untouched. -/
theorem c8_frame_effect_witness :
    (⟨["src"], "a.rs", [0x61]⟩ : SrcFile) ∈ runFS ("/w") [⟨["src"], "a.rs", [0x61]⟩] :=
  (c8_frame_effect ("/w") [⟨["src"], "a.rs", [0x61]⟩]).2.2 ⟨["src"], "a.rs", [0x61]⟩
    (by decide) (by decide)

end CombineSources
